import Mathlib

/-!
Shallow embedding of the BlendLuxCore self-update operator
(`operators/update.py`): release-catalog construction from the GitHub
feed, asset matching, the version-selector items callback, and the
download/backup/extract/rollback state machine of
`LUXCORE_OT_change_version.execute`.
-/

set_option autoImplicit false

namespace BlendLuxCore

/-! ### Python string primitives

`str.replace(old, new)` replaces every non-overlapping occurrence of
`old`, scanning left to right; `str.split(sep)` with a one-character
separator splits on every occurrence, keeping empty segments.  Both are
embedded as structural recursions on the character list (the `replace`
loop uses the string length as structural fuel: each step consumes at
least one character when the pattern is non-empty). -/

/-- One left-to-right pass replacing every non-overlapping occurrence of
`pat` by `rep`; `fuel` bounds the number of steps and is instantiated
with the length of the subject string. -/
def replaceAllFuel (pat rep : List Char) : Nat → List Char → List Char
  | _, [] => []
  | 0, s => s
  | fuel + 1, c :: cs =>
    if pat.isPrefixOf (c :: cs) then
      rep ++ replaceAllFuel pat rep fuel ((c :: cs).drop pat.length)
    else
      c :: replaceAllFuel pat rep fuel cs

/-- Embedding of Python `s.replace(pat, rep)` (replace all occurrences). -/
def pyReplace (s pat rep : String) : String :=
  ⟨replaceAllFuel pat.data rep.data s.data.length s.data⟩

/-- Embedding of Python `s.split(sep)` for a one-character separator:
splits at every occurrence of `sep`, keeping empty segments
(`"".split("-") == [""]`, `"a-".split("-") == ["a", ""]`). -/
def splitOnChar (sep : Char) : List Char → List (List Char)
  | [] => [[]]
  | c :: rest =>
    if c = sep then
      [] :: splitOnChar sep rest
    else
      match splitOnChar sep rest with
      | [] => [[c]]
      | h :: t => (c :: h) :: t

/-- `pySplit s sep` is Python `s.split(sep)` for a one-character `sep`. -/
def pySplit (s : String) (sep : Char) : List String :=
  (splitOnChar sep s.data).map String.mk

/-! ### Data model (`update.py` lines 20–28, 103–107)

`Release` mirrors the Python class of the same name (class attributes
act as defaults); the remote feed is a JSON array of objects
`{name, prerelease, assets: [{name, browser_download_url}]}`. -/

/-- One release record as built by `invoke` (class `Release`). -/
structure Release where
  version_string : String := ""
  is_prerelease : Bool := false
  download_url : String := ""
  deriving DecidableEq

/-- One asset object of a feed entry (`{name, browser_download_url}`). -/
structure Asset where
  name : String
  browser_download_url : String
  deriving DecidableEq

/-- One feed entry (`{name, prerelease, assets}`). -/
structure ReleaseInfo where
  name : String
  prerelease : Bool
  assets : List Asset
  deriving DecidableEq

/-! ### Asset matcher (`invoke`, lines 109–128) -/

/-- `asset["name"].replace("BlendLuxCore-", "").replace(".zip", "")`. -/
def assetMiddle (name : String) : String :=
  pyReplace (pyReplace name "BlendLuxCore-" "") ".zip" ""

/-- Parse one asset name (lines 113–123): split the stripped middle on
`"-"`; 2 segments give `(version, system, is_opencl := false)`,
3 segments give `(version, system, is_opencl := true)` with the third
segment discarded, anything else is an unsupported naming scheme
(`continue`), embedded as `none`. -/
def parseAssetName (name : String) : Option (String × String × Bool) :=
  match pySplit (assetMiddle name) '-' with
  | [version, system] => some (version, system, false)
  | [version, system, _] => some (version, system, true)
  | _ => none

/-- The inner asset loop (lines 109–128): starting from the class
default `entry.download_url = ""`, scan the assets in order, skip
unparsable names, and on the first asset whose system and OpenCL flag
both match set `entry.download_url` to its `browser_download_url` and
`break`. The result is the final value of `entry.download_url`. -/
def findAssetUrl (currentSystem : String) (currentIsOpencl : Bool) :
    List Asset → String
  | [] => ""
  | a :: rest =>
    match parseAssetName a.name with
    | none => findAssetUrl currentSystem currentIsOpencl rest
    | some (_, system, is_opencl) =>
      if system = currentSystem ∧ is_opencl = currentIsOpencl then
        a.browser_download_url
      else
        findAssetUrl currentSystem currentIsOpencl rest

/-- Spec-side characterisation of the matcher ("select the first
candidate asset whose system segment equals the current platform's
system identifier AND whose accelerated-build flag equals the current
installation's flag; first match wins"): written with `List.find?` to
be compared with `findAssetUrl`, which is taken from the source loop. -/
def assetMatches (currentSystem : String) (currentIsOpencl : Bool)
    (a : Asset) : Bool :=
  match parseAssetName a.name with
  | none => false
  | some (_, system, is_opencl) =>
    system = currentSystem ∧ is_opencl = currentIsOpencl

/-- Spec-side "first match wins" selection, for comparison with
`findAssetUrl`. -/
def firstMatchUrl (currentSystem : String) (currentIsOpencl : Bool)
    (assets : List Asset) : String :=
  match assets.find? (assetMatches currentSystem currentIsOpencl) with
  | some a => a.browser_download_url
  | none => ""

/-! ### Catalog construction (`invoke`, lines 103–132)

The module-level `releases` is an `OrderedDict`, embedded as an
association list in insertion order.  Assignment `d[k] = v` replaces the
value of an existing key in place (keeping its position) and otherwise
appends at the end. -/

/-- Association-list lookup (first entry with the given key). -/
def lookupAL {β : Type} : List (String × β) → String → Option β
  | [], _ => none
  | (k, v) :: rest, q => if k = q then some v else lookupAL rest q

/-- `OrderedDict` assignment `d[k] = v`: update in place if the key
exists, else append. -/
def odInsert {β : Type} (al : List (String × β)) (k : String) (v : β) :
    List (String × β) :=
  if (lookupAL al k).isSome then
    al.map fun e => if e.1 = k then (k, v) else e
  else
    al ++ [(k, v)]

/-- The `Release` record built for one feed entry (lines 104–127):
`version_string` is `name.replace("BlendLuxCore ", "")`, `is_prerelease`
is the feed flag, and `download_url` is the result of the asset loop. -/
def mkRelease (currentSystem : String) (currentIsOpencl : Bool)
    (info : ReleaseInfo) : Release :=
  { version_string := pyReplace info.name "BlendLuxCore " ""
    is_prerelease := info.prerelease
    download_url := findAssetUrl currentSystem currentIsOpencl info.assets }

/-- One iteration of the `for release_info in response` loop
(lines 103–132): build the entry and store it under its version string
only when `entry.download_url` is truthy (non-empty). -/
def processRelease (currentSystem : String) (currentIsOpencl : Bool)
    (catalog : List (String × Release)) (info : ReleaseInfo) :
    List (String × Release) :=
  let entry := mkRelease currentSystem currentIsOpencl info
  if entry.download_url ≠ "" then
    odInsert catalog entry.version_string entry
  else
    catalog

/-- The whole catalog pass: `releases.clear()` followed by the feed
loop, so the fold starts from the empty mapping. -/
def buildCatalog (currentSystem : String) (currentIsOpencl : Bool)
    (infos : List ReleaseInfo) : List (String × Release) :=
  infos.foldl (processRelease currentSystem currentIsOpencl) []

/-! ### Version selector (`release_items_callback`, lines 41–61) -/

/-- One Blender `EnumProperty` item tuple
`(identifier, name, description, icon, number)`. -/
structure EnumItem where
  identifier : String
  name : String
  description : String
  icon : String
  number : Nat
  deriving DecidableEq

/-- The `for i, release in enumerate(releases.values())` loop body:
description starts empty; an installed version gets icon `FILE_TICK`
and description `" (installed)"`, else a prerelease gets `ERROR` and
`" (unstable)"`, else icon `NONE`. -/
def releaseItemsFrom (currentVersion : String) :
    Nat → List Release → List EnumItem
  | _, [] => []
  | i, r :: rest =>
    let di : String × String :=
      if r.version_string = currentVersion then ("FILE_TICK", " (installed)")
      else if r.is_prerelease then ("ERROR", " (unstable)")
      else ("NONE", "")
    ⟨r.version_string, r.version_string, di.2, di.1, i⟩ ::
      releaseItemsFrom currentVersion (i + 1) rest

/-- `release_items_callback`: items for the values of the catalog in
insertion order, numbered from 0. -/
def release_items_callback (catalog : List (String × Release))
    (currentVersion : String) : List EnumItem :=
  releaseItemsFrom currentVersion 0 (catalog.map Prod.snd)

/-- Spec-side item description ("annotation rules, mutually exclusive,
evaluated in this priority order"): installed beats unstable, which
beats no annotation; the installed test does not look at
`is_prerelease`. -/
def descOf (r : Release) (currentVersion : String) : String :=
  if r.version_string = currentVersion then " (installed)"
  else if r.is_prerelease then " (unstable)"
  else ""

/-- Spec-side icon, same priority order as `descOf`. -/
def iconOf (r : Release) (currentVersion : String) : String :=
  if r.version_string = currentVersion then "FILE_TICK"
  else if r.is_prerelease then "ERROR"
  else "NONE"

/-! ### Filesystem model for `execute` (lines 137–202)

`execute` manipulates whole directory trees at fixed paths: the scoped
temporary directory, the installation root `blendluxcore_dir`, and the
backup directory.  A filesystem is an association list from path to the
tree stored there; tree contents are opaque to every operation used
(`shutil.move` renames, `shutil.rmtree` deletes, extraction writes), so
they are a type parameter. -/

/-- Lookup of the tree stored at a path. -/
def lookupFS {α : Type} : List (String × α) → String → Option α
  | [], _ => none
  | (k, v) :: rest, q => if k = q then some v else lookupFS rest q

/-- `os.path.exists`. -/
def existsFS {α : Type} (fs : List (String × α)) (p : String) : Bool :=
  (lookupFS fs p).isSome

/-- `shutil.rmtree` (also used for dropping a path before rewriting):
every entry at the given path is removed. -/
def eraseFS {α : Type} : List (String × α) → String → List (String × α)
  | [], _ => []
  | e :: rest, p => if e.1 = p then eraseFS rest p else e :: eraseFS rest p

/-- Write the tree `c` at path `p`. -/
def insertFS {α : Type} (fs : List (String × α)) (p : String) (c : α) :
    List (String × α) :=
  (p, c) :: eraseFS fs p

/-- `shutil.move src dst` in the rename case (every `shutil.move` in
`execute` has a non-existing destination, where it is a pure rename). -/
def moveFS {α : Type} (fs : List (String × α)) (src dst : String) :
    List (String × α) :=
  match lookupFS fs src with
  | some c => insertFS (eraseFS fs src) dst c
  | none => fs

/-- The existing paths of a filesystem. -/
def fsPaths {α : Type} (fs : List (String × α)) : List String :=
  fs.map Prod.fst

/-- The `while os.path.exists(backup_path): backup_path += "b"` loop
(lines 174–177), with structural fuel: each collision lengthens the
path, so among the `existing` paths at most
`countP (length candidate ≤ length ·)` collisions can occur, and
`existing.length + 1` steps always suffice. -/
def computeBackupPathFuel : Nat → List String → String → String
  | 0, _, p => p
  | fuel + 1, existing, p =>
    if p ∈ existing then computeBackupPathFuel fuel existing (p ++ "b")
    else p

/-- Backup-path choice of lines 173–177: start from the candidate
(`blendluxcore_dir + "_backup"` at the call site) and append `"b"`
while a path of that name exists. -/
def computeBackupPath (existing : List String) (p : String) : String :=
  computeBackupPathFuel (existing.length + 1) existing p

/-! ### The `execute` state machine (lines 137–202)

External effects that can go either way are parameters: the download
(`urllib.request.urlopen`) either succeeds or raises `URLError`, and
the extract-plus-cleanup region (lines 182–188) either succeeds —
writing the new tree at the installation root, then deleting the backup
— or raises, leaving at most a partially-written tree at the root.
The scoped `tempfile.TemporaryDirectory` is a fresh path holding the
downloaded data; it is removed on every exit path of the `with` block. -/

/-- Outcome of the download step (lines 157–164). -/
inductive DownloadOutcome where
  | ok : DownloadOutcome
  | fail (err : String) : DownloadOutcome
  deriving DecidableEq

/-- Outcome of the `try` region of lines 181–188: `ok newContent` means
extraction wrote `newContent` at the installation root and the backup
was deleted; `fail leftover` means an exception was raised after
writing `leftover` (possibly nothing) at the installation root. -/
inductive ExtractOutcome (α : Type) where
  | ok (newContent : α) : ExtractOutcome α
  | fail (leftover : Option α) : ExtractOutcome α
  deriving DecidableEq

/-- `'CANCELLED'` / `'FINISHED'` operator return values. -/
inductive OpResult where
  | CANCELLED : OpResult
  | FINISHED : OpResult
  deriving DecidableEq

/-- Result of one `execute` call: the operator return value, the
`self.report` messages issued, and the resulting filesystem. -/
structure ExecOutcome (α : Type) where
  result : OpResult
  reports : List String
  fs : List (String × α)
  deriving DecidableEq

/-- `LUXCORE_OT_change_version.execute` (lines 137–202).  `none` models
the uncaught `KeyError` of `releases[self.selected_release]` when the
selected key is absent.  Otherwise: the currently-installed guard
(lines 144–146); the temporary directory (line 153); the download with
its `URLError` handler (lines 157–164); the backup rename
(lines 172–179); the extract/cleanup region with its rollback handler
(lines 181–194); and the final report (lines 201–202).  Note the
rollback handler swallows the exception, so control falls through to
the success report. -/
def execute {α : Type} (catalog : List (String × Release))
    (currentVersion selectedRelease : String)
    (tempDir : String) (tempContent : α) (blendluxcoreDir : String)
    (dl : DownloadOutcome) (ext : ExtractOutcome α)
    (fs : List (String × α)) : Option (ExecOutcome α) :=
  match lookupAL catalog selectedRelease with
  | none => none
  | some requestedRelease =>
    if requestedRelease.version_string = currentVersion then
      some ⟨.CANCELLED, ["This is the currently installed version"], fs⟩
    else
      let fs1 := insertFS fs tempDir tempContent
      match dl with
      | .fail err =>
        some ⟨.CANCELLED, ["Could not download: " ++ err],
          eraseFS fs1 tempDir⟩
      | .ok =>
        let backupPath :=
          computeBackupPath (fsPaths fs1) (blendluxcoreDir ++ "_backup")
        let fs2 := moveFS fs1 blendluxcoreDir backupPath
        let fs3 :=
          match ext with
          | .ok newContent =>
            eraseFS (insertFS fs2 blendluxcoreDir newContent) backupPath
          | .fail leftover =>
            let fsA := match leftover with
              | some c => insertFS fs2 blendluxcoreDir c
              | none => fs2
            let fsB :=
              if existsFS fsA blendluxcoreDir then eraseFS fsA blendluxcoreDir
              else fsA
            moveFS fsB backupPath blendluxcoreDir
        some ⟨.FINISHED, ["Restart Blender!"], eraseFS fs3 tempDir⟩

/-! ### Helper lemmas: strings -/

theorem strData_ext {s t : String} (h : s.data = t.data) : s = t := by
  cases s; cases t; exact congrArg String.mk h

theorem strAppend_assoc (a b c : String) : a ++ b ++ c = a ++ (b ++ c) := by
  cases a with
  | mk A =>
    cases b with
    | mk B =>
      cases c with
      | mk C => exact congrArg String.mk (List.append_assoc A B C)

/-- `k` copies of the disambiguation character `"b"`. -/
def bRep (k : Nat) : String :=
  ⟨List.replicate k 'b'⟩

theorem strAppend_bRep_zero (p : String) : p ++ bRep 0 = p := by
  cases p with
  | mk A => exact congrArg String.mk (List.append_nil A)

theorem strAppend_bRep_succ (p : String) (k : Nat) :
    p ++ bRep (k + 1) = (p ++ "b") ++ bRep k := by
  cases p with
  | mk A =>
    apply congrArg String.mk
    show A ++ 'b' :: List.replicate k 'b' = (A ++ ['b']) ++ List.replicate k 'b'
    simp

theorem strLength_append_b (p : String) : (p ++ "b").length = p.length + 1 := by
  cases p with
  | mk d => simp [String.length, String.append]

/-! ### Helper lemmas: termination of the backup-name loop -/

/-- Number of paths of `existing` at least as long as `p`: an upper
bound on how many collisions the `while` loop of lines 174–177 can
still hit, since each collision lengthens the candidate. -/
def collCount (p : String) : List String → Nat
  | [] => 0
  | q :: rest => (if p.length ≤ q.length then 1 else 0) + collCount p rest

theorem collCount_le (p : String) (existing : List String) :
    collCount p existing ≤ existing.length := by
  induction existing with
  | nil => simp [collCount]
  | cons a rest ih =>
    simp only [collCount, List.length_cons]
    by_cases h : p.length ≤ a.length <;> simp [h] <;> omega

theorem collCount_mono_b (p : String) (existing : List String) :
    collCount (p ++ "b") existing ≤ collCount p existing := by
  induction existing with
  | nil => simp [collCount]
  | cons a rest ih =>
    have hlen := strLength_append_b p
    simp only [collCount]
    by_cases h1 : (p ++ "b").length ≤ a.length
    · have h2 : p.length ≤ a.length := by omega
      rw [if_pos h1, if_pos h2]
      omega
    · rw [if_neg h1]
      by_cases h2 : p.length ≤ a.length
      · rw [if_pos h2]
        omega
      · rw [if_neg h2]
        omega

theorem collCount_lt_of_mem {existing : List String} {p : String}
    (h : p ∈ existing) :
    collCount (p ++ "b") existing < collCount p existing := by
  induction existing with
  | nil => cases h
  | cons a rest ih =>
    have hlen := strLength_append_b p
    rcases List.mem_cons.mp h with rfl | hm
    · have h1 : ¬(p ++ "b").length ≤ p.length := by omega
      have h2 : p.length ≤ p.length := Nat.le_refl _
      have hrest := collCount_mono_b p rest
      simp only [collCount]
      rw [if_neg h1, if_pos h2]
      omega
    · have hrest := ih hm
      simp only [collCount]
      by_cases h1 : (p ++ "b").length ≤ a.length
      · have h2 : p.length ≤ a.length := by omega
        rw [if_pos h1, if_pos h2]
        omega
      · rw [if_neg h1]
        by_cases h2 : p.length ≤ a.length
        · rw [if_pos h2]
          omega
        · rw [if_neg h2]
          omega

theorem computeBackupPathFuel_spec :
    ∀ (fuel : Nat) (existing : List String) (p : String),
      collCount p existing < fuel →
      ∃ k, computeBackupPathFuel fuel existing p = p ++ bRep k ∧
        (p ++ bRep k) ∉ existing ∧ ∀ j, j < k → (p ++ bRep j) ∈ existing := by
  intro fuel
  induction fuel with
  | zero => intro _ _ h; omega
  | succ f ih =>
    intro existing p h
    by_cases hp : p ∈ existing
    · have hlt := collCount_lt_of_mem hp
      obtain ⟨k, hk, hnm, hall⟩ := ih existing (p ++ "b") (by omega)
      refine ⟨k + 1, ?_, ?_, ?_⟩
      · show (if p ∈ existing then computeBackupPathFuel f existing (p ++ "b")
            else p) = p ++ bRep (k + 1)
        rw [if_pos hp, hk, strAppend_bRep_succ]
      · rw [strAppend_bRep_succ]
        exact hnm
      · intro j hj
        cases j with
        | zero =>
          rw [strAppend_bRep_zero]
          exact hp
        | succ j =>
          rw [strAppend_bRep_succ]
          exact hall j (by omega)
    · refine ⟨0, ?_, ?_, ?_⟩
      · show (if p ∈ existing then computeBackupPathFuel f existing (p ++ "b")
            else p) = p ++ bRep 0
        rw [if_neg hp, strAppend_bRep_zero]
      · rw [strAppend_bRep_zero]
        exact hp
      · intro j hj
        omega

theorem computeBackupPath_spec (existing : List String) (p : String) :
    ∃ k, computeBackupPath existing p = p ++ bRep k ∧
      (p ++ bRep k) ∉ existing ∧ ∀ j, j < k → (p ++ bRep j) ∈ existing :=
  computeBackupPathFuel_spec (existing.length + 1) existing p
    (Nat.lt_succ_of_le (collCount_le p existing))

theorem computeBackupPath_not_mem (existing : List String) (p : String) :
    computeBackupPath existing p ∉ existing := by
  obtain ⟨k, hk, hnm, _⟩ := computeBackupPath_spec existing p
  rw [hk]
  exact hnm

/-! ### Helper lemmas: filesystem operations -/

theorem lookupFS_eraseFS {α : Type} (fs : List (String × α)) (p q : String) :
    lookupFS (eraseFS fs p) q = if p = q then none else lookupFS fs q := by
  induction fs with
  | nil => simp [eraseFS, lookupFS]
  | cons e rest ih =>
    obtain ⟨k, v⟩ := e
    simp only [eraseFS]
    by_cases hkp : k = p
    · rw [if_pos hkp, ih]
      subst hkp
      by_cases hkq : k = q
      · subst hkq
        simp [lookupFS]
      · simp [lookupFS, hkq]
    · rw [if_neg hkp]
      by_cases hkq : k = q
      · subst hkq
        have hpq : p ≠ k := fun h => hkp h.symm
        simp [lookupFS, hpq]
      · simp [lookupFS, hkq, ih]

theorem lookupFS_insertFS {α : Type} (fs : List (String × α)) (p q : String)
    (c : α) :
    lookupFS (insertFS fs p c) q = if p = q then some c else lookupFS fs q := by
  by_cases hpq : p = q
  · simp [insertFS, lookupFS, hpq]
  · simp [insertFS, lookupFS, hpq, lookupFS_eraseFS]

theorem lookupFS_eq_none_of_not_mem {α : Type} {fs : List (String × α)}
    {p : String} (h : p ∉ fsPaths fs) : lookupFS fs p = none := by
  induction fs with
  | nil => rfl
  | cons e rest ih =>
    obtain ⟨k, v⟩ := e
    simp only [fsPaths, List.map_cons, List.mem_cons, not_or] at h
    simp only [lookupFS]
    rw [if_neg fun hk : k = p => h.1 hk.symm]
    exact ih h.2

theorem mem_fsPaths_of_lookupFS {α : Type} {fs : List (String × α)}
    {p : String} {c : α} (h : lookupFS fs p = some c) : p ∈ fsPaths fs := by
  induction fs with
  | nil => simp [lookupFS] at h
  | cons e rest ih =>
    obtain ⟨k, v⟩ := e
    simp only [fsPaths, List.map_cons, List.mem_cons]
    by_cases hk : k = p
    · exact Or.inl hk.symm
    · simp only [lookupFS, if_neg hk] at h
      exact Or.inr (ih h)

/-! ### Claim theorems -/

/-- C2: whenever the selected release's version string equals the
current version, `execute` reports "This is the currently installed
version", returns `CANCELLED`, and leaves the filesystem exactly as it
was (no download, no backup move, no extraction). -/
theorem installed_version_guard_noop {α : Type}
    (catalog : List (String × Release))
    (currentVersion selectedRelease tempDir : String) (tempContent : α)
    (blendluxcoreDir : String) (dl : DownloadOutcome) (ext : ExtractOutcome α)
    (fs : List (String × α)) (r : Release)
    (hsel : lookupAL catalog selectedRelease = some r)
    (hver : r.version_string = currentVersion) :
    execute catalog currentVersion selectedRelease tempDir tempContent
        blendluxcoreDir dl ext fs =
      some ⟨.CANCELLED, ["This is the currently installed version"], fs⟩ := by
  simp only [execute, hsel, if_pos hver]

/-- C2 witness: the guard fires on a concrete catalog and filesystem. -/
theorem installed_version_guard_noop_witness :
    execute [("v2.0", ⟨"v2.0", false, "u"⟩)] "v2.0" "v2.0" "/tmp/t" (0 : Nat)
        "/addons/BlendLuxCore" .ok (.ok 1) [("/addons/BlendLuxCore", 7)] =
      some ⟨.CANCELLED, ["This is the currently installed version"],
        [("/addons/BlendLuxCore", 7)]⟩ :=
  installed_version_guard_noop _ _ _ _ _ _ _ _ _ ⟨"v2.0", false, "u"⟩
    (by decide) rfl

/-- C7: when the download raises `URLError`, `execute` reports
"Could not download: <cause>", returns `CANCELLED`, the scoped
temporary directory is gone again, and the filesystem is unchanged at
every path (in particular at the installation root and its parent). -/
theorem download_failure_leaves_state_unchanged {α : Type}
    (catalog : List (String × Release))
    (currentVersion selectedRelease tempDir : String) (tempContent : α)
    (blendluxcoreDir : String) (err : String) (ext : ExtractOutcome α)
    (fs : List (String × α)) (r : Release)
    (hsel : lookupAL catalog selectedRelease = some r)
    (hver : r.version_string ≠ currentVersion)
    (htd : lookupFS fs tempDir = none) :
    ∃ fsFinal,
      execute catalog currentVersion selectedRelease tempDir tempContent
          blendluxcoreDir (.fail err) ext fs =
        some ⟨.CANCELLED, ["Could not download: " ++ err], fsFinal⟩ ∧
      ∀ p, lookupFS fsFinal p = lookupFS fs p := by
  simp only [execute, hsel, if_neg hver]
  refine ⟨_, rfl, ?_⟩
  intro p
  rw [lookupFS_eraseFS]
  by_cases hp : tempDir = p
  · rw [if_pos hp, ← hp, htd]
  · rw [if_neg hp, lookupFS_insertFS, if_neg hp]

/-- C7 witness: a concrete download failure leaves a one-directory
filesystem unchanged. -/
theorem download_failure_leaves_state_unchanged_witness :
    ∃ fsFinal,
      execute [("v2.1", ⟨"v2.1", false, "u"⟩)] "v2.0" "v2.1" "/tmp/t" (0 : Nat)
          "/addons/BlendLuxCore" (.fail "timed out") (.ok 1)
          [("/addons/BlendLuxCore", 7)] =
        some ⟨.CANCELLED, ["Could not download: timed out"], fsFinal⟩ ∧
      ∀ p, lookupFS fsFinal p = lookupFS [("/addons/BlendLuxCore", 7)] p :=
  download_failure_leaves_state_unchanged _ _ _ _ _ _ _ _ _
    ⟨"v2.1", false, "u"⟩ (by decide) (by decide) (by decide)

/-- C8: the backup path starts from the installation root plus
`"_backup"` and appends the single character `"b"` repeatedly while a
path of the resulting name exists (so the result is the candidate plus
the least run of `"b"`s that avoids every existing path); in particular
with `<root>_backup` existing and `<root>_backupb` free, the chosen
path is `<root>_backupb`. -/
theorem backup_path_collision_suffix (existing : List String) (root : String) :
    (∃ k, computeBackupPath existing (root ++ "_backup") =
        (root ++ "_backup") ++ bRep k ∧
      ((root ++ "_backup") ++ bRep k) ∉ existing ∧
      ∀ j, j < k → ((root ++ "_backup") ++ bRep j) ∈ existing) ∧
    ((root ++ "_backup") ∈ existing → (root ++ "_backupb") ∉ existing →
      computeBackupPath existing (root ++ "_backup") = root ++ "_backupb") := by
  constructor
  · exact computeBackupPath_spec existing (root ++ "_backup")
  · intro h1 h2
    have key : root ++ "_backup" ++ "b" = root ++ "_backupb" := by
      rw [strAppend_assoc]
      exact congrArg (fun s => root ++ s) (by decide)
    rcases existing with _ | ⟨a, rest⟩
    · cases h1
    · simp only [computeBackupPath, List.length_cons, computeBackupPathFuel]
      rw [if_pos h1, key]
      rw [if_neg h2]

/-- C8 witness: the collision case on a concrete filesystem. -/
theorem backup_path_collision_suffix_witness :
    computeBackupPath ["/a/BlendLuxCore_backup"] ("/a/BlendLuxCore" ++ "_backup") =
      "/a/BlendLuxCore" ++ "_backupb" :=
  (backup_path_collision_suffix ["/a/BlendLuxCore_backup"] "/a/BlendLuxCore").2
    (by decide) (by decide)

/-- Reduced form of the feed-loop body: the entry is stored under its
stripped version string exactly when the asset loop produced a
non-empty URL. -/
theorem processRelease_eq (currentSystem : String) (currentIsOpencl : Bool)
    (catalog : List (String × Release)) (info : ReleaseInfo) :
    processRelease currentSystem currentIsOpencl catalog info =
      if findAssetUrl currentSystem currentIsOpencl info.assets ≠ "" then
        odInsert catalog (pyReplace info.name "BlendLuxCore " "")
          (mkRelease currentSystem currentIsOpencl info)
      else catalog := rfl

/-- C10: the catalog is keyed by version string, so two feed entries
producing the same version string, each with a matching asset, leave
exactly one record — the one built from the later entry. -/
theorem duplicate_version_later_entry_wins (currentSystem : String)
    (currentIsOpencl : Bool) (i1 i2 : ReleaseInfo)
    (hv : pyReplace i1.name "BlendLuxCore " "" =
      pyReplace i2.name "BlendLuxCore " "")
    (h1 : findAssetUrl currentSystem currentIsOpencl i1.assets ≠ "")
    (h2 : findAssetUrl currentSystem currentIsOpencl i2.assets ≠ "") :
    buildCatalog currentSystem currentIsOpencl [i1, i2] =
      [(pyReplace i2.name "BlendLuxCore " "",
        mkRelease currentSystem currentIsOpencl i2)] := by
  have k1eq : (mkRelease currentSystem currentIsOpencl i1).version_string =
      pyReplace i1.name "BlendLuxCore " "" := rfl
  simp only [buildCatalog, List.foldl_cons, List.foldl_nil, processRelease_eq,
    if_pos h1, if_pos h2]
  have step1 : odInsert ([] : List (String × Release))
      (pyReplace i1.name "BlendLuxCore " "")
      (mkRelease currentSystem currentIsOpencl i1) =
      [(pyReplace i1.name "BlendLuxCore " "",
        mkRelease currentSystem currentIsOpencl i1)] := rfl
  rw [step1]
  simp only [odInsert, lookupAL, hv, if_pos rfl, Option.isSome_some, if_true,
    List.map_cons, List.map_nil]

/-- C10 witness: a concrete feed with a duplicated version string. -/
theorem duplicate_version_later_entry_wins_witness :
    buildCatalog "linux64" false
      [⟨"BlendLuxCore v2.0", false, [⟨"BlendLuxCore-v2.0-linux64.zip", "u1"⟩]⟩,
       ⟨"BlendLuxCore v2.0", true, [⟨"BlendLuxCore-v2.0-linux64.zip", "u2"⟩]⟩] =
      [(pyReplace "BlendLuxCore v2.0" "BlendLuxCore " "",
        mkRelease "linux64" false
          ⟨"BlendLuxCore v2.0", true, [⟨"BlendLuxCore-v2.0-linux64.zip", "u2"⟩]⟩)] :=
  duplicate_version_later_entry_wins "linux64" false _ _ (by decide) (by decide)
    (by decide)

/-- Members of an `OrderedDict` after an assignment are old members or
the assigned pair. -/
theorem mem_odInsert {β : Type} {al : List (String × β)} {k : String} {v : β}
    {x : String × β} (hx : x ∈ odInsert al k v) : x ∈ al ∨ x = (k, v) := by
  unfold odInsert at hx
  by_cases h : (lookupAL al k).isSome
  · rw [if_pos h] at hx
    obtain ⟨y, hy, hfy⟩ := List.mem_map.mp hx
    by_cases hyk : y.1 = k
    · right
      rw [← hfy, if_pos hyk]
    · left
      rw [← hfy, if_neg hyk]
      exact hy
  · rw [if_neg h] at hx
    rcases List.mem_append.mp hx with hm | hm
    · exact Or.inl hm
    · exact Or.inr (List.mem_singleton.mp hm)

/-- The non-empty-URL invariant is preserved along the feed loop. -/
theorem buildCatalog_foldl_inv (currentSystem : String)
    (currentIsOpencl : Bool) :
    ∀ (infos : List ReleaseInfo) (acc : List (String × Release)),
      (∀ kv, kv ∈ acc → kv.2.download_url ≠ "") →
      ∀ kv, kv ∈ infos.foldl (processRelease currentSystem currentIsOpencl) acc →
        kv.2.download_url ≠ "" := by
  intro infos
  induction infos with
  | nil =>
    intro acc hacc kv hkv
    rw [List.foldl_nil] at hkv
    exact hacc kv hkv
  | cons i rest ih =>
    intro acc hacc kv hkv
    rw [List.foldl_cons] at hkv
    refine ih _ ?_ kv hkv
    intro kv2 hkv2
    rw [processRelease_eq] at hkv2
    by_cases hurl : findAssetUrl currentSystem currentIsOpencl i.assets ≠ ""
    · rw [if_pos hurl] at hkv2
      rcases mem_odInsert hkv2 with hm | hm
      · exact hacc kv2 hm
      · rw [hm]
        exact hurl
    · rw [if_neg hurl] at hkv2
      exact hacc kv2 hkv2

/-- C3: every record kept in the final catalog has a non-empty matched
`download_url`; a release whose asset loop matched nothing (empty URL)
contributes no catalog entry at all. -/
theorem catalog_entries_have_download_url (currentSystem : String)
    (currentIsOpencl : Bool) (infos : List ReleaseInfo) :
    (∀ kv, kv ∈ buildCatalog currentSystem currentIsOpencl infos →
      kv.2.download_url ≠ "") ∧
    (∀ (catalog : List (String × Release)) (info : ReleaseInfo),
      findAssetUrl currentSystem currentIsOpencl info.assets = "" →
      processRelease currentSystem currentIsOpencl catalog info = catalog) := by
  constructor
  · exact buildCatalog_foldl_inv currentSystem currentIsOpencl infos []
      (fun kv h => absurd h (List.not_mem_nil kv))
  · intro catalog info h
    rw [processRelease_eq, h]
    simp

/-- C3 witness: a matched release's record has a non-empty URL, and an
unmatched release leaves the catalog untouched. -/
theorem catalog_entries_have_download_url_witness :
    ("v2.0", (⟨"v2.0", false, "u1"⟩ : Release)).2.download_url ≠ "" ∧
    processRelease "linux64" false []
      ⟨"BlendLuxCore v1.0", false, [⟨"BlendLuxCore-old.zip", "u0"⟩]⟩ = [] :=
  ⟨(catalog_entries_have_download_url "linux64" false
      [⟨"BlendLuxCore v2.0", false, [⟨"BlendLuxCore-v2.0-linux64.zip", "u1"⟩]⟩]).1
      _ (by decide),
   (catalog_entries_have_download_url "linux64" false []).2 []
      ⟨"BlendLuxCore v1.0", false, [⟨"BlendLuxCore-old.zip", "u0"⟩]⟩ (by decide)⟩

/-- C5: after stripping the prefix and `.zip` and splitting on `"-"`,
exactly 2 segments parse as a non-accelerated build, exactly 3 as an
accelerated build (third segment not inspected), and any other count
makes the asset parse to `none`, which the matcher loop skips without
effect. -/
theorem asset_name_segment_rules (name : String) :
    (∀ v s, pySplit (assetMiddle name) '-' = [v, s] →
      parseAssetName name = some (v, s, false)) ∧
    (∀ v s t, pySplit (assetMiddle name) '-' = [v, s, t] →
      parseAssetName name = some (v, s, true)) ∧
    ((pySplit (assetMiddle name) '-').length ≠ 2 →
      (pySplit (assetMiddle name) '-').length ≠ 3 →
      parseAssetName name = none) ∧
    (∀ (a : Asset) (rest : List Asset) (cs : String) (cl : Bool),
      parseAssetName a.name = none →
      findAssetUrl cs cl (a :: rest) = findAssetUrl cs cl rest) := by
  refine ⟨?_, ?_, ?_, ?_⟩
  · intro v s h
    simp [parseAssetName, h]
  · intro v s t h
    simp [parseAssetName, h]
  · intro h2 h3
    rcases hsp : pySplit (assetMiddle name) '-' with _ | ⟨a, _ | ⟨b, _ | ⟨c, rest⟩⟩⟩
    · simp [parseAssetName, hsp]
    · simp [parseAssetName, hsp]
    · rw [hsp] at h2
      simp at h2
    · rcases rest with _ | ⟨d, rest2⟩
      · rw [hsp] at h3
        simp at h3
      · simp [parseAssetName, hsp]
  · intro a rest cs cl h
    simp [findAssetUrl, h]

/-- C5 witness: the three segment-count cases and the skip rule on
concrete asset names. -/
theorem asset_name_segment_rules_witness :
    parseAssetName "BlendLuxCore-v2.0alpha7-linux64.zip" =
      some ("v2.0alpha7", "linux64", false) ∧
    parseAssetName "BlendLuxCore-v2.0alpha7-win64-opencl.zip" =
      some ("v2.0alpha7", "win64", true) ∧
    parseAssetName "BlendLuxCore-legacy.zip" = none ∧
    findAssetUrl "linux64" false [⟨"BlendLuxCore-legacy.zip", "u0"⟩] =
      findAssetUrl "linux64" false [] :=
  ⟨(asset_name_segment_rules "BlendLuxCore-v2.0alpha7-linux64.zip").1
      "v2.0alpha7" "linux64" (by decide),
   (asset_name_segment_rules "BlendLuxCore-v2.0alpha7-win64-opencl.zip").2.1
      "v2.0alpha7" "win64" "opencl" (by decide),
   (asset_name_segment_rules "BlendLuxCore-legacy.zip").2.2.1
      (by decide) (by decide),
   (asset_name_segment_rules "BlendLuxCore-legacy.zip").2.2.2
      ⟨"BlendLuxCore-legacy.zip", "u0"⟩ [] "linux64" false (by decide)⟩

/-- The source loop agrees with the spec-side first-match selection. -/
theorem findAssetUrl_eq_firstMatch (cs : String) (cl : Bool)
    (assets : List Asset) :
    findAssetUrl cs cl assets = firstMatchUrl cs cl assets := by
  induction assets with
  | nil => rfl
  | cons a rest ih =>
    cases hp : parseAssetName a.name with
    | none =>
      have hm : assetMatches cs cl a = false := by
        simp [assetMatches, hp]
      simp [findAssetUrl, firstMatchUrl, List.find?_cons, hp, hm, ih]
    | some triple =>
      obtain ⟨v, sys, op⟩ := triple
      by_cases hc : sys = cs ∧ op = cl
      · have hm : assetMatches cs cl a = true := by
          simp [assetMatches, hp, hc.1, hc.2]
        simp [findAssetUrl, firstMatchUrl, List.find?_cons, hp, hc, hm]
      · have hm : assetMatches cs cl a = false := by
          simp only [assetMatches, hp]
          exact decide_eq_false hc
        simp [findAssetUrl, firstMatchUrl, List.find?_cons, hp, hc, hm, ih]

/-- C6: the matched URL is the `browser_download_url` of the first
asset whose system segment and accelerated flag both match, and
scanning stops there; on a release offering `-linux64.zip` then
`-linux64-opencl.zip` to an accelerated linux64 installation, the
`-opencl` asset wins. -/
theorem matcher_first_match_wins :
    (∀ (cs : String) (cl : Bool) (assets : List Asset),
      findAssetUrl cs cl assets = firstMatchUrl cs cl assets) ∧
    findAssetUrl "linux64" true
      [⟨"BlendLuxCore-v2.1-linux64.zip", "url-noacc"⟩,
       ⟨"BlendLuxCore-v2.1-linux64-opencl.zip", "url-opencl"⟩] = "url-opencl" :=
  ⟨findAssetUrl_eq_firstMatch, by decide⟩

theorem releaseItemsFrom_length (currentVersion : String) :
    ∀ (n : Nat) (rs : List Release),
      (releaseItemsFrom currentVersion n rs).length = rs.length := by
  intro n rs
  induction rs generalizing n with
  | nil => rfl
  | cons r rest ih => simp [releaseItemsFrom, ih]

theorem releaseItemsFrom_get (currentVersion : String) :
    ∀ (rs : List Release) (n i : Nat)
      (h1 : i < (releaseItemsFrom currentVersion n rs).length)
      (h2 : i < rs.length),
      (releaseItemsFrom currentVersion n rs).get ⟨i, h1⟩ =
        ⟨(rs.get ⟨i, h2⟩).version_string, (rs.get ⟨i, h2⟩).version_string,
         descOf (rs.get ⟨i, h2⟩) currentVersion,
         iconOf (rs.get ⟨i, h2⟩) currentVersion, n + i⟩ := by
  intro rs
  induction rs with
  | nil =>
    intro n i h1 h2
    exact absurd h2 (Nat.not_lt_zero i)
  | cons r rest ih =>
    intro n i h1 h2
    cases i with
    | zero =>
      by_cases hv : r.version_string = currentVersion
      · simp [releaseItemsFrom, List.get, descOf, iconOf, hv]
      · by_cases hp : r.is_prerelease <;>
          simp [releaseItemsFrom, List.get, descOf, iconOf, hv, hp]
    | succ j =>
      have hlx : j < (releaseItemsFrom currentVersion (n + 1) rest).length := by
        rw [releaseItemsFrom_length]
        exact Nat.lt_of_succ_lt_succ h2
      have e1 : (releaseItemsFrom currentVersion n (r :: rest)).get ⟨j + 1, h1⟩ =
          (releaseItemsFrom currentVersion (n + 1) rest).get ⟨j, hlx⟩ := rfl
      rw [e1, ih (n + 1) j hlx (Nat.lt_of_succ_lt_succ h2)]
      have e2 : n + 1 + j = n + (j + 1) := by omega
      rw [e2]
      rfl

/-- C9: the selector emits one item per catalog record in insertion
order; the i-th item carries the record's version string as identifier
and name, index i as number, and the mutually exclusive annotation of
`descOf`/`iconOf`: "installed" when the version matches the current
one (prerelease or not), else "unstable" for prereleases, else
nothing. -/
theorem selector_items_annotations (catalog : List (String × Release))
    (currentVersion : String) :
    (release_items_callback catalog currentVersion).length = catalog.length ∧
    ∀ (i : Nat) (h1 : i < (release_items_callback catalog currentVersion).length)
      (h2 : i < catalog.length),
      (release_items_callback catalog currentVersion).get ⟨i, h1⟩ =
        ⟨(catalog.get ⟨i, h2⟩).2.version_string,
         (catalog.get ⟨i, h2⟩).2.version_string,
         descOf (catalog.get ⟨i, h2⟩).2 currentVersion,
         iconOf (catalog.get ⟨i, h2⟩).2 currentVersion, i⟩ := by
  constructor
  · simp only [release_items_callback]
    rw [releaseItemsFrom_length, List.length_map]
  · intro i h1 h2
    have hm : i < (catalog.map Prod.snd).length := by
      rw [List.length_map]
      exact h2
    simp only [release_items_callback]
    rw [releaseItemsFrom_get currentVersion (catalog.map Prod.snd) 0 i h1 hm]
    have hget : (catalog.map Prod.snd).get ⟨i, hm⟩ = (catalog.get ⟨i, h2⟩).2 := by
      simp [List.get_eq_getElem]
    rw [hget, Nat.zero_add]

/-- C9 witness: a prerelease matching the current version is annotated
"installed", not "unstable". -/
theorem selector_items_annotations_witness :
    (release_items_callback [("v2.0", ⟨"v2.0", true, "u"⟩)] "v2.0").get
        ⟨0, by decide⟩ =
      ⟨"v2.0", "v2.0", " (installed)", "FILE_TICK", 0⟩ :=
  ((selector_items_annotations [("v2.0", ⟨"v2.0", true, "u"⟩)] "v2.0").2 0
    (by decide) (by decide)).trans (by decide)

/-- Common tail of the rollback handler: whatever the state `fsB`
after the optional partial-tree deletion, restoring the backup by
`shutil.move(backup_path, blendluxcore_dir)` and leaving the `with`
block (temp-dir removal) yields a filesystem that agrees with the
pre-update one at every path. -/
theorem rollback_tail {α : Type} (fs fsB : List (String × α))
    (tempDir root bp : String) (orig : α)
    (htd : lookupFS fs tempDir = none)
    (hroot : lookupFS fs root = some orig)
    (hbp_fs : lookupFS fs bp = none)
    (hB_bp : lookupFS fsB bp = some orig)
    (hB_other : ∀ q, q ≠ bp → q ≠ root → q ≠ tempDir →
      lookupFS fsB q = lookupFS fs q) :
    ∀ q, lookupFS (eraseFS (moveFS fsB bp root) tempDir) q = lookupFS fs q := by
  intro q
  have e1 : moveFS fsB bp root = insertFS (eraseFS fsB bp) root orig := by
    simp only [moveFS, hB_bp]
  rw [e1, lookupFS_eraseFS]
  by_cases hq_td : tempDir = q
  · rw [if_pos hq_td, ← hq_td, htd]
  · rw [if_neg hq_td, lookupFS_insertFS]
    by_cases hq_root : root = q
    · rw [if_pos hq_root, ← hq_root, hroot]
    · rw [if_neg hq_root, lookupFS_eraseFS]
      by_cases hq_bp : bp = q
      · rw [if_pos hq_bp, ← hq_bp, hbp_fs]
      · rw [if_neg hq_bp]
        exact hB_other q (fun h => hq_bp h.symm) (fun h => hq_root h.symm)
          (fun h => hq_td h.symm)

/-- C1: when extraction fails after the backup move, on exit of the
rollback handler any partially-written installation root has been
deleted, the backup has been moved back (the backup path no longer
holds anything), and the filesystem — in particular the installation
root's contents — equals the pre-update state at every path. -/
theorem rollback_restores_preupdate_state {α : Type}
    (catalog : List (String × Release))
    (currentVersion selectedRelease tempDir : String) (tempContent : α)
    (blendluxcoreDir : String) (leftover : Option α)
    (fs : List (String × α)) (r : Release) (orig : α)
    (hsel : lookupAL catalog selectedRelease = some r)
    (hver : r.version_string ≠ currentVersion)
    (htd : lookupFS fs tempDir = none)
    (hroot : lookupFS fs blendluxcoreDir = some orig) :
    ∃ fsFinal,
      execute catalog currentVersion selectedRelease tempDir tempContent
          blendluxcoreDir .ok (.fail leftover) fs =
        some ⟨.FINISHED, ["Restart Blender!"], fsFinal⟩ ∧
      lookupFS fsFinal blendluxcoreDir = some orig ∧
      lookupFS fsFinal
        (computeBackupPath (fsPaths (insertFS fs tempDir tempContent))
          (blendluxcoreDir ++ "_backup")) = none ∧
      ∀ p, lookupFS fsFinal p = lookupFS fs p := by
  have hne_td_root : tempDir ≠ blendluxcoreDir := by
    intro h
    rw [h, hroot] at htd
    cases htd
  have h1root :
      lookupFS (insertFS fs tempDir tempContent) blendluxcoreDir = some orig := by
    rw [lookupFS_insertFS, if_neg hne_td_root]
    exact hroot
  have h1td :
      lookupFS (insertFS fs tempDir tempContent) tempDir = some tempContent := by
    rw [lookupFS_insertFS, if_pos rfl]
  have hbp_none :
      lookupFS (insertFS fs tempDir tempContent)
        (computeBackupPath (fsPaths (insertFS fs tempDir tempContent))
          (blendluxcoreDir ++ "_backup")) = none :=
    lookupFS_eq_none_of_not_mem (computeBackupPath_not_mem _ _)
  have hbp_root :
      computeBackupPath (fsPaths (insertFS fs tempDir tempContent))
        (blendluxcoreDir ++ "_backup") ≠ blendluxcoreDir := by
    intro h
    rw [h, h1root] at hbp_none
    cases hbp_none
  have hbp_td :
      computeBackupPath (fsPaths (insertFS fs tempDir tempContent))
        (blendluxcoreDir ++ "_backup") ≠ tempDir := by
    intro h
    rw [h, h1td] at hbp_none
    cases hbp_none
  have hbp_fs :
      lookupFS fs
        (computeBackupPath (fsPaths (insertFS fs tempDir tempContent))
          (blendluxcoreDir ++ "_backup")) = none := by
    have h := hbp_none
    rw [lookupFS_insertFS, if_neg (fun hh => hbp_td hh.symm)] at h
    exact h
  have e2 : moveFS (insertFS fs tempDir tempContent) blendluxcoreDir
      (computeBackupPath (fsPaths (insertFS fs tempDir tempContent))
        (blendluxcoreDir ++ "_backup")) =
      insertFS (eraseFS (insertFS fs tempDir tempContent) blendluxcoreDir)
        (computeBackupPath (fsPaths (insertFS fs tempDir tempContent))
          (blendluxcoreDir ++ "_backup")) orig := by
    simp only [moveFS, h1root]
  cases leftover with
  | none =>
    simp only [execute, hsel, if_neg hver]
    rw [e2]
    have eA : lookupFS
        (insertFS (eraseFS (insertFS fs tempDir tempContent) blendluxcoreDir)
          (computeBackupPath (fsPaths (insertFS fs tempDir tempContent))
            (blendluxcoreDir ++ "_backup")) orig) blendluxcoreDir = none := by
      rw [lookupFS_insertFS, if_neg hbp_root, lookupFS_eraseFS, if_pos rfl]
    have eEx : existsFS
        (insertFS (eraseFS (insertFS fs tempDir tempContent) blendluxcoreDir)
          (computeBackupPath (fsPaths (insertFS fs tempDir tempContent))
            (blendluxcoreDir ++ "_backup")) orig) blendluxcoreDir = false := by
      simp only [existsFS, eA]
      rfl
    rw [eEx, if_neg (by decide : ¬(false = true))]
    have hB_bp : lookupFS
        (insertFS (eraseFS (insertFS fs tempDir tempContent) blendluxcoreDir)
          (computeBackupPath (fsPaths (insertFS fs tempDir tempContent))
            (blendluxcoreDir ++ "_backup")) orig)
        (computeBackupPath (fsPaths (insertFS fs tempDir tempContent))
          (blendluxcoreDir ++ "_backup")) = some orig := by
      rw [lookupFS_insertFS, if_pos rfl]
    have hB_other : ∀ q,
        q ≠ computeBackupPath (fsPaths (insertFS fs tempDir tempContent))
          (blendluxcoreDir ++ "_backup") →
        q ≠ blendluxcoreDir → q ≠ tempDir →
        lookupFS
          (insertFS (eraseFS (insertFS fs tempDir tempContent) blendluxcoreDir)
            (computeBackupPath (fsPaths (insertFS fs tempDir tempContent))
              (blendluxcoreDir ++ "_backup")) orig) q = lookupFS fs q := by
      intro q hq1 hq2 hq3
      rw [lookupFS_insertFS, if_neg (fun h => hq1 h.symm), lookupFS_eraseFS,
        if_neg (fun h => hq2 h.symm), lookupFS_insertFS,
        if_neg (fun h => hq3 h.symm)]
    have hAll := rollback_tail fs _ tempDir blendluxcoreDir
      (computeBackupPath (fsPaths (insertFS fs tempDir tempContent))
        (blendluxcoreDir ++ "_backup")) orig htd hroot hbp_fs hB_bp hB_other
    refine ⟨_, rfl, ?_, ?_, ?_⟩
    · exact (hAll blendluxcoreDir).trans hroot
    · exact (hAll (computeBackupPath (fsPaths (insertFS fs tempDir tempContent))
        (blendluxcoreDir ++ "_backup"))).trans hbp_fs
    · exact hAll
  | some c =>
    simp only [execute, hsel, if_neg hver]
    rw [e2]
    have eA : lookupFS
        (insertFS
          (insertFS (eraseFS (insertFS fs tempDir tempContent) blendluxcoreDir)
            (computeBackupPath (fsPaths (insertFS fs tempDir tempContent))
              (blendluxcoreDir ++ "_backup")) orig)
          blendluxcoreDir c) blendluxcoreDir = some c := by
      rw [lookupFS_insertFS, if_pos rfl]
    have eEx : existsFS
        (insertFS
          (insertFS (eraseFS (insertFS fs tempDir tempContent) blendluxcoreDir)
            (computeBackupPath (fsPaths (insertFS fs tempDir tempContent))
              (blendluxcoreDir ++ "_backup")) orig)
          blendluxcoreDir c) blendluxcoreDir = true := by
      simp only [existsFS, eA]
      rfl
    rw [eEx, if_pos rfl]
    have hB_bp : lookupFS
        (eraseFS
          (insertFS
            (insertFS (eraseFS (insertFS fs tempDir tempContent) blendluxcoreDir)
              (computeBackupPath (fsPaths (insertFS fs tempDir tempContent))
                (blendluxcoreDir ++ "_backup")) orig)
            blendluxcoreDir c) blendluxcoreDir)
        (computeBackupPath (fsPaths (insertFS fs tempDir tempContent))
          (blendluxcoreDir ++ "_backup")) = some orig := by
      rw [lookupFS_eraseFS, if_neg (fun h => hbp_root h.symm), lookupFS_insertFS,
        if_neg (fun h => hbp_root h.symm), lookupFS_insertFS, if_pos rfl]
    have hB_other : ∀ q,
        q ≠ computeBackupPath (fsPaths (insertFS fs tempDir tempContent))
          (blendluxcoreDir ++ "_backup") →
        q ≠ blendluxcoreDir → q ≠ tempDir →
        lookupFS
          (eraseFS
            (insertFS
              (insertFS (eraseFS (insertFS fs tempDir tempContent) blendluxcoreDir)
                (computeBackupPath (fsPaths (insertFS fs tempDir tempContent))
                  (blendluxcoreDir ++ "_backup")) orig)
              blendluxcoreDir c) blendluxcoreDir) q = lookupFS fs q := by
      intro q hq1 hq2 hq3
      rw [lookupFS_eraseFS, if_neg (fun h => hq2 h.symm), lookupFS_insertFS,
        if_neg (fun h => hq2 h.symm), lookupFS_insertFS,
        if_neg (fun h => hq1 h.symm), lookupFS_eraseFS,
        if_neg (fun h => hq2 h.symm), lookupFS_insertFS,
        if_neg (fun h => hq3 h.symm)]
    have hAll := rollback_tail fs _ tempDir blendluxcoreDir
      (computeBackupPath (fsPaths (insertFS fs tempDir tempContent))
        (blendluxcoreDir ++ "_backup")) orig htd hroot hbp_fs hB_bp hB_other
    refine ⟨_, rfl, ?_, ?_, ?_⟩
    · exact (hAll blendluxcoreDir).trans hroot
    · exact (hAll (computeBackupPath (fsPaths (insertFS fs tempDir tempContent))
        (blendluxcoreDir ++ "_backup"))).trans hbp_fs
    · exact hAll

/-- C1 witness: rollback on a concrete filesystem with a partial tree
left behind by the failed extraction. -/
theorem rollback_restores_preupdate_state_witness :
    ∃ fsFinal,
      execute [("v2.1", ⟨"v2.1", false, "u"⟩)] "v2.0" "v2.1" "/tmp/t" (0 : Nat)
          "/addons/BlendLuxCore" .ok (.fail (some 99))
          [("/addons/BlendLuxCore", 7)] =
        some ⟨.FINISHED, ["Restart Blender!"], fsFinal⟩ ∧
      lookupFS fsFinal "/addons/BlendLuxCore" = some 7 ∧
      lookupFS fsFinal
        (computeBackupPath
          (fsPaths (insertFS [("/addons/BlendLuxCore", 7)] "/tmp/t" 0))
          ("/addons/BlendLuxCore" ++ "_backup")) = none ∧
      ∀ p, lookupFS fsFinal p = lookupFS [("/addons/BlendLuxCore", 7)] p :=
  rollback_restores_preupdate_state _ _ _ _ _ _ _ _
    ⟨"v2.1", false, "u"⟩ 7 (by decide) (by decide) (by decide) (by decide)

/-- C4: evaluation of `execute` at a concrete extraction failure.  The
rollback handler of lines 189–194 swallows the exception, so control
falls through to lines 196–202: the only report issued is the success
message "Restart Blender!" and the result is `FINISHED` — the
extraction error is never surfaced to the user, contradicting the
claim that every error in the taxonomy is reported. -/
theorem extraction_failure_reports_success :
    execute [("v2.2", ⟨"v2.2", false, "u"⟩)] "v2.0" "v2.2" "/tmp/dl" (0 : Nat)
        "/addons/BlendLuxCore" .ok (.fail (some 42))
        [("/addons/BlendLuxCore", 5)] =
      some ⟨.FINISHED, ["Restart Blender!"], [("/addons/BlendLuxCore", 5)]⟩ := by
  decide

end BlendLuxCore
